import Mathlib

/-!
# Smart-Librarian: verification of the retrieval core

Shallow embedding of the Smart-Librarian repository (files `retriever.py`,
`cli.py`, `tools.py`, `database.py`) and proofs about the claims of its
specification.

Modelling conventions:
* Python strings are Lean `String` / `List Char`; `str.strip` is `pyStrip`
  and `str.lower` is `pyLower` (ASCII whitespace and case folding — the
  concrete inputs in all theorems are ASCII).
* Python floats are modelled as exact rationals `ℚ`; `round(x, 3)` is
  round-half-to-even at three decimals (`pyRound3`).
* Fallible operations return `Option` / `Except`.
* External services (OpenAI chat completion, the Chroma vector store, the
  filesystem) are parameters: the chat reply is an oracle function, the
  vector-store query result is passed as data, and the catalog file is a
  `Dataset` value.
-/

namespace SmartLibrarian

/-! ## Python / JSON value model

`search_books` (retriever.py, lines 168-177) runs `json.loads` on the stored
themes metadata string.  `PyVal` models the values `json.loads` can return:
JSON null/booleans/integers, non-integer numbers (floats, kept as exact
rationals), the `NaN`/`Infinity` extensions Python's `json` accepts, strings,
arrays and objects (objects as key-value lists in parse order). -/

inductive PyVal : Type where
  | vNull : PyVal
  | vBool (b : Bool) : PyVal
  | vInt (n : Int) : PyVal
  | vNum (q : ℚ) : PyVal
  | vNaN : PyVal
  | vInf (neg : Bool) : PyVal
  | vStr (s : String) : PyVal
  | vList (xs : List PyVal) : PyVal
  | vObj (kvs : List (String × PyVal)) : PyVal

/-- JSON whitespace skipping (space, tab, newline, carriage return). -/
def skipWs : List Char → List Char
  | c :: cs => if c = ' ' ∨ c = '\t' ∨ c = '\n' ∨ c = '\r' then skipWs cs else c :: cs
  | [] => []

/-- Consume an expected literal such as `null`, `true`, `false`. -/
def dropLit : List Char → List Char → Option (List Char)
  | [], cs => some cs
  | _ :: _, [] => none
  | l :: ls, c :: cs => if c = l then dropLit ls cs else none

def hexVal (c : Char) : Option Nat :=
  if '0' ≤ c ∧ c ≤ '9' then some (c.toNat - 48)
  else if 'a' ≤ c ∧ c ≤ 'f' then some (c.toNat - 87)
  else if 'A' ≤ c ∧ c ≤ 'F' then some (c.toNat - 55)
  else none

/-- Body of a JSON string literal (after the opening quote), with the escape
sequences `json.loads` accepts; raw control characters are rejected (strict
mode).  `\uXXXX` outside the valid `Char` range is mapped to `Char.ofNat`'s
default. -/
def parseStringBody : Nat → List Char → List Char → Option (String × List Char)
  | 0, _, _ => none
  | _ + 1, [], _ => none
  | fuel + 1, c :: rest, acc =>
    if c = '"' then some (⟨acc.reverse⟩, rest)
    else if c = '\\' then
      match rest with
      | [] => none
      | e :: rest2 =>
        if e = '"' then parseStringBody fuel rest2 ('"' :: acc)
        else if e = '\\' then parseStringBody fuel rest2 ('\\' :: acc)
        else if e = '/' then parseStringBody fuel rest2 ('/' :: acc)
        else if e = 'b' then parseStringBody fuel rest2 (Char.ofNat 8 :: acc)
        else if e = 'f' then parseStringBody fuel rest2 (Char.ofNat 12 :: acc)
        else if e = 'n' then parseStringBody fuel rest2 ('\n' :: acc)
        else if e = 'r' then parseStringBody fuel rest2 ('\r' :: acc)
        else if e = 't' then parseStringBody fuel rest2 ('\t' :: acc)
        else if e = 'u' then
          match rest2 with
          | h1 :: h2 :: h3 :: h4 :: rest3 =>
            match hexVal h1, hexVal h2, hexVal h3, hexVal h4 with
            | some a, some b, some c3, some d =>
              parseStringBody fuel rest3
                (Char.ofNat (((a * 16 + b) * 16 + c3) * 16 + d) :: acc)
            | _, _, _, _ => none
          | _ => none
        else none
    else if c.toNat < 32 then none
    else parseStringBody fuel rest (c :: acc)

def digitsToNat (ds : List Char) : Nat :=
  ds.foldl (fun n c => n * 10 + (c.toNat - 48)) 0

/-- JSON number (int, or float when a fraction/exponent part is present),
with JSON's no-leading-zero rule. -/
def parseNumber (cs : List Char) : Option (PyVal × List Char) :=
  let (neg, cs1) := match cs with
    | '-' :: t => (true, t)
    | _ => (false, cs)
  let intDigits := cs1.takeWhile Char.isDigit
  let cs2 := cs1.dropWhile Char.isDigit
  if intDigits = [] then none
  else if 2 ≤ intDigits.length ∧ intDigits.headD '0' = '0' then none
  else
    let (fracDigits, cs3, hasFrac) := match cs2 with
      | '.' :: t => (t.takeWhile Char.isDigit, t.dropWhile Char.isDigit, true)
      | _ => ([], cs2, false)
    if hasFrac ∧ fracDigits = [] then none
    else
      let (hasExp, expNeg, expDigits, cs4) := match cs3 with
        | 'e' :: '+' :: t => (true, false, t.takeWhile Char.isDigit, t.dropWhile Char.isDigit)
        | 'e' :: '-' :: t => (true, true, t.takeWhile Char.isDigit, t.dropWhile Char.isDigit)
        | 'e' :: t => (true, false, t.takeWhile Char.isDigit, t.dropWhile Char.isDigit)
        | 'E' :: '+' :: t => (true, false, t.takeWhile Char.isDigit, t.dropWhile Char.isDigit)
        | 'E' :: '-' :: t => (true, true, t.takeWhile Char.isDigit, t.dropWhile Char.isDigit)
        | 'E' :: t => (true, false, t.takeWhile Char.isDigit, t.dropWhile Char.isDigit)
        | _ => (false, false, [], cs3)
      if hasExp ∧ expDigits = [] then none
      else
        let ip : Nat := digitsToNat intDigits
        if ¬ hasFrac ∧ ¬ hasExp then
          some (.vInt (if neg then -(ip : Int) else (ip : Int)), cs4)
        else
          let mant : ℚ := (ip : ℚ) + (digitsToNat fracDigits : ℚ) / ((10 : ℚ) ^ fracDigits.length)
          let ex : ℤ := if expNeg then -(digitsToNat expDigits : ℤ) else (digitsToNat expDigits : ℤ)
          let v : ℚ := (if neg then -mant else mant) * (10 : ℚ) ^ ex
          some (.vNum v, cs4)

mutual

/-- Recursive-descent JSON value parser (the grammar `json.loads` accepts,
including the `NaN` / `Infinity` / `-Infinity` extensions). -/
def parseVal : Nat → List Char → Option (PyVal × List Char)
  | 0, _ => none
  | _ + 1, [] => none
  | fuel + 1, c :: cs =>
    if c = 'n' then (dropLit ['u', 'l', 'l'] cs).map (fun r => (.vNull, r))
    else if c = 't' then (dropLit ['r', 'u', 'e'] cs).map (fun r => (.vBool true, r))
    else if c = 'f' then (dropLit ['a', 'l', 's', 'e'] cs).map (fun r => (.vBool false, r))
    else if c = 'N' then (dropLit ['a', 'N'] cs).map (fun r => (.vNaN, r))
    else if c = 'I' then
      (dropLit ['n', 'f', 'i', 'n', 'i', 't', 'y'] cs).map (fun r => (.vInf false, r))
    else if c = '-' ∧ cs.headD ' ' = 'I' then
      (dropLit ['I', 'n', 'f', 'i', 'n', 'i', 't', 'y'] cs).map (fun r => (.vInf true, r))
    else if c = '"' then (parseStringBody (cs.length + 1) cs []).map (fun p => (.vStr p.1, p.2))
    else if c = '[' then
      let cs1 := skipWs cs
      match cs1 with
      | ']' :: rest => some (.vList [], rest)
      | _ => parseArrItems fuel cs1 []
    else if c = Char.ofNat 123 then
      let cs1 := skipWs cs
      match cs1 with
      | d :: rest =>
        if d = Char.ofNat 125 then some (.vObj [], rest)
        else parseObjItems fuel cs1 []
      | [] => none
    else parseNumber (c :: cs)

/-- Items of a JSON array, after the opening bracket and leading whitespace. -/
def parseArrItems : Nat → List Char → List PyVal → Option (PyVal × List Char)
  | 0, _, _ => none
  | fuel + 1, cs, acc =>
    match parseVal fuel cs with
    | none => none
    | some (v, rest) =>
      match skipWs rest with
      | ',' :: rest2 => parseArrItems fuel (skipWs rest2) (v :: acc)
      | ']' :: rest2 => some (.vList (v :: acc).reverse, rest2)
      | _ => none

/-- Members of a JSON object, after the opening brace and leading whitespace. -/
def parseObjItems : Nat → List Char → List (String × PyVal) → Option (PyVal × List Char)
  | 0, _, _ => none
  | fuel + 1, cs, acc =>
    match cs with
    | '"' :: cs1 =>
      match parseStringBody (cs1.length + 1) cs1 [] with
      | none => none
      | some (key, rest) =>
        match skipWs rest with
        | ':' :: rest2 =>
          match parseVal fuel (skipWs rest2) with
          | none => none
          | some (v, rest3) =>
            match skipWs rest3 with
            | ',' :: rest4 => parseObjItems fuel (skipWs rest4) ((key, v) :: acc)
            | d :: rest4 =>
              if d = Char.ofNat 125 then some (.vObj ((key, v) :: acc).reverse, rest4)
              else none
            | [] => none
        | _ => none
    | _ => none

end

/-- The model of Python's `json.loads`: parse a full document, allowing
leading and trailing whitespace only. -/
def jsonLoads (s : String) : Option PyVal :=
  match parseVal (4 * s.length + 8) (skipWs s.data) with
  | some (v, rest) => if skipWs rest = [] then some v else none
  | none => none

/-! ## Theme metadata serialization (retriever.py)

Write side, `build_index` line 113: `"themes": ", ".join(themes)`.
Read side, `search_books` lines 169-176:
```
themes = meta.get("themes")
if isinstance(themes, str):
    try:
        themes = json.loads(themes)
    except Exception:
        themes = [themes]
if themes is None:
    themes = []
```
-/

/-- `", ".join(themes)` from `build_index`. -/
def serializeThemes (themes : List String) : String :=
  String.intercalate ", " themes

/-- The theme-deserialization step of `search_books`: `meta.get("themes")` is
`none` (key absent / `None`) or `some stored`; a string value goes through
`json.loads` with the single-element-list fallback, and a `None` result
(`json.loads "null"`) becomes the empty list. -/
def deserializeThemes (stored : Option String) : PyVal :=
  match stored with
  | none => .vList []
  | some s =>
    match jsonLoads s with
    | some .vNull => .vList []
    | some v => v
    | none => .vList [.vStr s]

/-! ## Catalog model (tools.py, database.py)

A catalog record is a JSON object with optional `title` / `summary` /
`themes` fields (`book.get(...)` with defaults in the source).  The state of
the dataset file is a `Dataset`: `missing` (the path does not exist) or
`present books` (the file holds a JSON list of records). -/

/-- ASCII whitespace stripped by Python's `str.strip()`. -/
def isPySpace (c : Char) : Bool :=
  c = ' ' ∨ c = '\t' ∨ c = '\n' ∨ c = '\r' ∨ c = Char.ofNat 11 ∨ c = Char.ofNat 12

/-- Python's `str.strip()` (ASCII whitespace). -/
def pyStrip (s : String) : String :=
  ⟨((s.data.dropWhile isPySpace).reverse.dropWhile isPySpace).reverse⟩

/-- Python's `str.lower()` (ASCII case folding). -/
def pyLower (s : String) : String :=
  ⟨s.data.map Char.toLower⟩

structure Book where
  title : Option String
  summary : Option String
  themes : Option (List String)
deriving DecidableEq

inductive Dataset where
  | missing : Dataset
  | present (books : List Book) : Dataset

/-- `_load_books` (tools.py, lines 7-15): a missing file yields `[]` (a
non-list JSON document also yields `[]`; that branch needs no separate
constructor for the claims below). -/
def load_books (d : Dataset) : List Book :=
  match d with
  | .missing => []
  | .present bs => bs

/-- `load_book_summaries` (database.py, lines 4-15): raises
`FileNotFoundError` for a missing path, otherwise returns the parsed data. -/
def load_book_summaries (d : Dataset) (json_path : String) : Except String (List Book) :=
  match d with
  | .missing => .error ("Dataset not found at: " ++ json_path)
  | .present bs => .ok bs

/-- `get_summary_by_title` (tools.py, lines 17-27): retained title check
(`not title.strip()`), then first record whose stripped, lowered title equals
the stripped, lowered query. -/
def get_summary_by_title (d : Dataset) (title : String) : String :=
  if pyStrip title = "" then ""
  else
    let want := pyLower (pyStrip title)
    match (load_books d).find? (fun b => pyLower (pyStrip (b.title.getD "")) = want) with
    | some b => b.summary.getD ""
    | none => ""

/-- `_all_titles` (tools.py, lines 29-33): stripped titles of records whose
`title` field is truthy (present and non-empty). -/
def all_titles (d : Dataset) : List String :=
  ((load_books d).filter (fun b => ¬ (b.title.getD "" = ""))).map
    (fun b => pyStrip (b.title.getD ""))

/-! ## difflib model (used by `match_title`, tools.py lines 35-44)

`difflib.get_close_matches(word, possibilities, n=1, cutoff=0.6)` keeps each
candidate whose `SequenceMatcher(None, candidate, word).ratio()` is at least
the cutoff and returns the largest surviving `(ratio, candidate)` pair.
`ratio` is `2*M/T` where `T` is the total length and `M` the total size of
the matching blocks: recursively, the longest common contiguous block
(leftmost in `a`, then in `b`, on ties) splits the two sequences and the
regions to its left and right are matched recursively.  The model is exact
for the inputs at hand: no junk is declared, and `autojunk` only affects
second sequences of length ≥ 200.  `real_quick_ratio`/`quick_ratio` are
upper bounds of `ratio`, so the source's three-way cutoff test is equivalent
to `ratio ≥ cutoff`.  Floats are modelled as exact rationals. -/

/-- Length of the common prefix of two character lists. -/
def commonRun : List Char → List Char → Nat
  | x :: xs, y :: ys => if x = y then commonRun xs ys + 1 else 0
  | _, _ => 0

/-- `SequenceMatcher.find_longest_match` on full sequences: the longest
common contiguous block `(i, j, k)`, ties broken by least `i`, then least
`j`; `(0, 0, 0)` when there is no common block. -/
def flm (a b : List Char) : Nat × Nat × Nat :=
  (List.range a.length).foldl
    (fun best i =>
      (List.range b.length).foldl
        (fun best j =>
          let k := commonRun (a.drop i) (b.drop j)
          if best.2.2 < k then (i, j, k) else best)
        best)
    (0, 0, 0)

/-- Total size of the matching blocks (`get_matching_blocks` recursion). -/
def mbTotal : Nat → List Char → List Char → Nat
  | 0, _, _ => 0
  | fuel + 1, a, b =>
    let r := flm a b
    if r.2.2 = 0 then 0
    else
      r.2.2 + mbTotal fuel (a.take r.1) (b.take r.2.1) +
        mbTotal fuel (a.drop (r.1 + r.2.2)) (b.drop (r.2.1 + r.2.2))

def matchTotal (a b : List Char) : Nat :=
  mbTotal (a.length + b.length + 1) a b

/-- `SequenceMatcher(None, a, b).ratio()`, as an exact rational; `1` when
both sequences are empty (difflib's `_calculate_ratio`). -/
def ratioQ (a b : List Char) : ℚ :=
  if a.length + b.length = 0 then 1
  else (2 * matchTotal a b : ℚ) / ((a.length : ℚ) + (b.length : ℚ))

/-- Python string comparison (lexicographic by code point). -/
def pyStrLt : List Char → List Char → Bool
  | [], [] => false
  | [], _ :: _ => true
  | _ :: _, [] => false
  | x :: xs, y :: ys => if x = y then pyStrLt xs ys else decide (x < y)

/-- One step of taking the largest `(ratio, candidate)` pair, tuples compared
lexicographically as Python's `heapq.nlargest` does. -/
def maxPairStep (best : Option (ℚ × String)) (p : ℚ × String) : Option (ℚ × String) :=
  match best with
  | none => some p
  | some b => if b.1 < p.1 ∨ (b.1 = p.1 ∧ pyStrLt b.2.data p.2.data) then some p else some b

/-- `difflib.get_close_matches(word, possibilities, n=1, cutoff)`: candidates
passing the cutoff, largest `(ratio, candidate)` pair returned. -/
def get_close_matches1 (word : String) (possibilities : List String) (cutoff : ℚ) :
    Option String :=
  ((possibilities.filterMap (fun x =>
      if cutoff ≤ ratioQ x.data word.data then some (ratioQ x.data word.data, x) else none)).foldl
    maxPairStep none).map Prod.snd

/-- `match_title` (tools.py, lines 35-44): blank queries yield `""`; otherwise
the best fuzzy match over the stripped catalog titles at cutoff `0.6`, or
`""` when none survives.  Note the source strips but does not case-fold. -/
def match_title (d : Dataset) (query : String) : String :=
  if pyStrip query = "" then ""
  else
    match get_close_matches1 (pyStrip query) (all_titles d) (3 / 5) with
    | some x => x
    | none => ""

/-- Modelled from the spec: the Title Resolver fuzzy path of §4.1, which
"normalizes both query and catalog titles by trimming whitespace and
case-folding before comparison" and returns the single best match when its
similarity is at least `0.6`.  Identical to `match_title` except that both
sides are case-folded before the similarity comparison (the returned title is
the catalog title, as the spec's resolver yields a catalog title). -/
def match_title_spec (d : Dataset) (query : String) : String :=
  if pyStrip query = "" then ""
  else
    let word := pyLower (pyStrip query)
    match ((all_titles d).filterMap (fun x =>
        if (3 / 5 : ℚ) ≤ ratioQ (pyLower x).data word.data then
          some (ratioQ (pyLower x).data word.data, x)
        else none)).foldl maxPairStep none with
    | some p => p.2
    | none => ""

/-! ## Constrained selection (cli.py) -/

/-- `p` is a prefix of `l` (character lists). -/
def startsWith : List Char → List Char → Bool
  | [], _ => true
  | _ :: _, [] => false
  | x :: xs, y :: ys => x = y && startsWith xs ys

/-- Python's substring containment `needle in hay`. -/
def containsSeq (needle : List Char) : List Char → Bool
  | [] => startsWith needle []
  | c :: rest => startsWith needle (c :: rest) || containsSeq needle rest

/-- The containment test of cli.py line 45: `t.lower() in reply.lower()`. -/
def occursIn (t reply : String) : Bool :=
  containsSeq (pyLower t).data (pyLower reply).data

/-- `_pick_from_titles` (cli.py, lines 14-53).  The generative provider is an
oracle from the user query and title list to the free-text reply; the Bool
records whether a provider call was made.  Empty title list: return `""` at
once with no call (lines 19-20).  Otherwise the first title contained
case-insensitively in the reply is chosen, defaulting to `titles[0]`
(line 45). -/
def _pick_from_titles (oracle : String → List String → String)
    (user_query : String) (titles : List String) : String × Bool :=
  match titles with
  | [] => ("", false)
  | t0 :: ts =>
    let reply := oracle user_query (t0 :: ts)
    (((t0 :: ts).find? (fun t => occursIn t reply)).getD t0, true)

/-- cli.py line 67: `fixed_title = match_title(user_query) or user_query`. -/
def fixedTitle (d : Dataset) (user_query : String) : String :=
  if match_title d user_query = "" then user_query else match_title d user_query

/-- The title-based path of `handle_query` (cli.py, lines 67-74): look up the
summary of the fixed title; a non-empty summary resolves the query with that
title and summary, an empty one falls through to semantic search (`none`). -/
def titleResolution (d : Dataset) (user_query : String) : Option (String × String) :=
  if get_summary_by_title d (fixedTitle d user_query) = "" then none
  else some (fixedTitle d user_query, get_summary_by_title d (fixedTitle d user_query))

/-! ## Score normalization and semantic search (retriever.py) -/

/-- Round half to even (Python's `round` on exact halves). -/
def roundHalfEven (q : ℚ) : ℤ :=
  if q - ⌊q⌋ < 1 / 2 then ⌊q⌋
  else if 1 / 2 < q - ⌊q⌋ then ⌊q⌋ + 1
  else if ⌊q⌋ % 2 = 0 then ⌊q⌋ else ⌊q⌋ + 1

/-- Python's `round(q, 3)` on floats, idealized over exact rationals. -/
def pyRound3 (q : ℚ) : ℚ :=
  (roundHalfEven (q * 1000) : ℚ) / 1000

/-- `cosine_score_from_distance` (retriever.py, lines 67-80): similarity
`1 - d`, affinely mapped to `[0, 1]`, clamped below then above, rounded to
three decimals. -/
def cosine_score_from_distance (d : ℚ) : ℚ :=
  let sim : ℚ := 1 - d
  let norm : ℚ := (sim + 1) / 2
  let norm1 : ℚ := if norm < 0 then 0 else norm
  let norm2 : ℚ := if 1 < norm1 then 1 else norm1
  pyRound3 norm2

/-- One metadata record returned by the vector store for a hit:
`meta.get("title")` and `meta.get("themes")` (the themes value as stored, a
string, or absent). -/
structure MetaR where
  title : Option String
  themes : Option String
deriving DecidableEq

/-- One entry of the list `search_books` returns:
`{"title": ..., "score": ..., "themes": ...}`. -/
structure SearchItem where
  title : Option String
  score : ℚ
  themes : PyVal

/-- The per-hit loop of `search_books` (retriever.py, lines 164-178):
`d = float(distances[i]) if i < len(distances) else 1.0`, score via
`cosine_score_from_distance`, themes deserialized. -/
def processResults : List MetaR → List ℚ → List SearchItem
  | [], _ => []
  | m :: ms, [] =>
    ⟨m.title, cosine_score_from_distance 1, deserializeThemes m.themes⟩ :: processResults ms []
  | m :: ms, dv :: ds =>
    ⟨m.title, cosine_score_from_distance dv, deserializeThemes m.themes⟩ :: processResults ms ds

/-- The result-processing tail of `search_books` (retriever.py, lines
155-180), as a function of the vector-store reply: `metadatas` and
`distances` are lists of per-query lists; an empty `metadatas` list returns
`[]`, otherwise the first inner lists are processed (`distances` defaulting
to `[]` when absent). -/
def search_books_post (metadatas_list : List (List MetaR)) (distances_list : List (List ℚ)) :
    List SearchItem :=
  match metadatas_list with
  | [] => []
  | metadatas :: _ =>
    let distances := match distances_list with
      | [] => []
      | ds :: _ => ds
    processResults metadatas distances

/-! ## Index building (retriever.py, lines 88-119) -/

/-- Batches of at most `bs` elements, in order (`embed_texts` batching loop,
retriever.py lines 60-64). -/
def chunksOf (bs : Nat) : Nat → List String → List (List String)
  | 0, _ => []
  | _ + 1, [] => []
  | fuel + 1, l => l.take bs :: chunksOf bs fuel (l.drop bs)

/-- Everything `build_index` (retriever.py, lines 100-118) sends to the
providers after loading the catalog: ids (stringified ordinals), documents,
per-entry metadata `(title, comma-joined themes)`, and the batched embedding
requests.  The same ids/documents/metadatas plus the embedding vectors form
the single upsert. -/
structure IndexPlan where
  ids : List String
  documents : List String
  metadatas : List (String × String)
  embedBatches : List (List String)
deriving DecidableEq

/-- `build_index` after `load_book_summaries` (retriever.py, lines 100-118):
an empty catalog raises `RuntimeError` before any embedding request or
upsert; otherwise the plan of provider calls is produced.  Defaults follow
the source: `book.get("summary", "")`, `book.get("title", f"Untitled #idx")`,
`book.get("themes", [])`. -/
def build_index_model (books : List Book) : Except String IndexPlan :=
  if books = [] then .error "No books were loaded. Check the JSON file."
  else
    let documents := books.map (fun b => b.summary.getD "")
    .ok
      { ids := (List.range books.length).map (fun i => toString i)
        documents := documents
        metadatas := (books.enum.map (fun p =>
          (p.2.title.getD ("Untitled #" ++ toString p.1),
           serializeThemes (p.2.themes.getD []))))
        embedBatches := chunksOf 64 (documents.length + 1) documents }

/-! ## Concrete inputs used by witnesses and counterexamples -/

def metasW : List MetaR := [⟨some "A", some "x, y"⟩, ⟨some "B", none⟩]

def distsW : List ℚ := [0, 1 / 2]

def hobbitCatalog : Dataset := Dataset.present [⟨some "The Hobbit", some "S1", none⟩]

def twoHobbitCatalog : Dataset :=
  Dataset.present [⟨some "The Hobbit", some "S1", none⟩, ⟨some "the hobbits", some "S2", none⟩]

def upperCatalog : Dataset := Dataset.present [⟨some "ABCDE", some "S1", none⟩]

def boundaryCatalog : Dataset := Dataset.present [⟨some "abcd", some "S1", none⟩]

/-! ## Helper lemmas -/

/-- `find?` decomposition: a found element splits the list, with the search
predicate false on everything before it. -/
theorem find?_some_decomp {α : Type _} (p : α → Bool) :
    ∀ (l : List α) (a : α), l.find? p = some a →
      ∃ l1 l2, l = l1 ++ a :: l2 ∧ p a = true ∧ ∀ x ∈ l1, p x = false := by
  intro l
  induction l with
  | nil => intro a h; simp [List.find?] at h
  | cons hd tl ih =>
    intro a h
    by_cases hp : p hd
    · rw [List.find?_cons_of_pos _ hp] at h
      injection h with h1
      subst h1
      exact ⟨[], tl, rfl, hp, by intro x hx; simp at hx⟩
    · rw [List.find?_cons_of_neg _ hp] at h
      obtain ⟨l1, l2, hsplit, hpa, hprev⟩ := ih a h
      refine ⟨hd :: l1, l2, by rw [hsplit]; rfl, hpa, ?_⟩
      intro x hx
      rcases List.mem_cons.mp hx with hx | hx
      · subst hx; exact Bool.not_eq_true _ ▸ (by simpa using hp)
      · exact hprev x hx

theorem roundHalfEven_ge_floor (q : ℚ) : ⌊q⌋ ≤ roundHalfEven q := by
  unfold roundHalfEven
  split_ifs <;> omega

theorem roundHalfEven_le_floor_add_one (q : ℚ) : roundHalfEven q ≤ ⌊q⌋ + 1 := by
  unfold roundHalfEven
  split_ifs <;> omega

theorem le_roundHalfEven {n : ℤ} {q : ℚ} (h : (n : ℚ) ≤ q) : n ≤ roundHalfEven q :=
  le_trans (Int.le_floor.mpr h) (roundHalfEven_ge_floor q)

theorem roundHalfEven_le {n : ℤ} {q : ℚ} (h : q ≤ (n : ℚ)) : roundHalfEven q ≤ n := by
  have hfl : ⌊q⌋ ≤ n := by simpa using Int.floor_le_floor h
  have hq : (⌊q⌋ : ℚ) ≤ q := Int.floor_le q
  unfold roundHalfEven
  split_ifs with h1 h2 h3
  · exact hfl
  · have hlt : (⌊q⌋ : ℚ) < (n : ℚ) := by linarith
    have : ⌊q⌋ < n := by exact_mod_cast hlt
    omega
  · exact hfl
  · have hhalf : 1 / 2 ≤ q - (⌊q⌋ : ℚ) := by linarith
    have hlt : (⌊q⌋ : ℚ) < (n : ℚ) := by linarith
    have : ⌊q⌋ < n := by exact_mod_cast hlt
    omega

theorem roundHalfEven_mono {q r : ℚ} (h : q ≤ r) : roundHalfEven q ≤ roundHalfEven r := by
  rcases lt_or_eq_of_le (Int.floor_le_floor h : ⌊q⌋ ≤ ⌊r⌋) with hlt | heq
  · calc roundHalfEven q ≤ ⌊q⌋ + 1 := roundHalfEven_le_floor_add_one q
      _ ≤ ⌊r⌋ := by omega
      _ ≤ roundHalfEven r := roundHalfEven_ge_floor r
  · have hc : ((⌊q⌋ : ℤ) : ℚ) = ((⌊r⌋ : ℤ) : ℚ) := by exact_mod_cast heq
    unfold roundHalfEven
    split_ifs <;> first | omega | linarith

theorem pyRound3_mono {q r : ℚ} (h : q ≤ r) : pyRound3 q ≤ pyRound3 r := by
  unfold pyRound3
  have hm : roundHalfEven (q * 1000) ≤ roundHalfEven (r * 1000) :=
    roundHalfEven_mono (by linarith)
  have hm' : ((roundHalfEven (q * 1000) : ℤ) : ℚ) ≤ ((roundHalfEven (r * 1000) : ℤ) : ℚ) := by
    exact_mod_cast hm
  exact div_le_div_of_nonneg_right hm' (by norm_num) |>.trans_eq rfl

theorem pyRound3_nonneg {q : ℚ} (h : 0 ≤ q) : 0 ≤ pyRound3 q := by
  unfold pyRound3
  have : (0 : ℤ) ≤ roundHalfEven (q * 1000) := le_roundHalfEven (by push_cast; linarith)
  have hc : (0 : ℚ) ≤ (roundHalfEven (q * 1000) : ℚ) := by exact_mod_cast this
  positivity

theorem pyRound3_le_one {q : ℚ} (h : q ≤ 1) : pyRound3 q ≤ 1 := by
  unfold pyRound3
  have : roundHalfEven (q * 1000) ≤ (1000 : ℤ) := roundHalfEven_le (by push_cast; linarith)
  have hc : (roundHalfEven (q * 1000) : ℚ) ≤ 1000 := by exact_mod_cast this
  rw [div_le_one (by norm_num)]
  exact hc

/-- The clamped value inside `cosine_score_from_distance` is nonnegative. -/
theorem cosine_score_nonneg (d : ℚ) : 0 ≤ cosine_score_from_distance d := by
  simp only [cosine_score_from_distance]
  apply pyRound3_nonneg
  split_ifs <;> linarith

theorem cosine_score_le_one (d : ℚ) : cosine_score_from_distance d ≤ 1 := by
  simp only [cosine_score_from_distance]
  apply pyRound3_le_one
  split_ifs <;> linarith

/-- Larger cosine distance never yields a larger normalized score. -/
theorem cosine_score_antitone {d d' : ℚ} (h : d ≤ d') :
    cosine_score_from_distance d' ≤ cosine_score_from_distance d := by
  simp only [cosine_score_from_distance]
  apply pyRound3_mono
  split_ifs <;> linarith

/-- `maxPairStep` always yields `some`, keeping either the accumulator or the
new pair, and never decreases the tracked ratio. -/
theorem maxPairStep_cases (acc : Option (ℚ × String)) (p : ℚ × String) :
    ∃ x, maxPairStep acc p = some x ∧ (x = p ∨ acc = some x) ∧ p.1 ≤ x.1 ∧
      ∀ a, acc = some a → a.1 ≤ x.1 := by
  cases acc with
  | none =>
    refine ⟨p, rfl, Or.inl rfl, le_refl _, ?_⟩
    intro a ha
    simp at ha
  | some b =>
    by_cases hcond : b.1 < p.1 ∨ (b.1 = p.1 ∧ pyStrLt b.2.data p.2.data)
    · refine ⟨p, by simp [maxPairStep, hcond], Or.inl rfl, le_refl _, ?_⟩
      intro a ha
      injection ha with ha
      subst ha
      rcases hcond with h | h
      · exact le_of_lt h
      · exact le_of_eq h.1
    · have hple : p.1 ≤ b.1 := not_lt.mp (fun hlt => hcond (Or.inl hlt))
      refine ⟨b, ?_, Or.inr rfl, hple, ?_⟩
      · simp only [maxPairStep]
        rw [if_neg hcond]
      · intro a ha
        injection ha with ha
        subst ha
        exact le_refl _

/-- A fold of `maxPairStep` starting from `some` stays `some`. -/
theorem foldl_maxPairStep_isSome (l : List (ℚ × String)) :
    ∀ x : ℚ × String, ∃ y, l.foldl maxPairStep (some x) = some y := by
  induction l with
  | nil => intro x; exact ⟨x, rfl⟩
  | cons p t ih =>
    intro x
    simp only [List.foldl_cons]
    obtain ⟨z, hz, -, -, -⟩ := maxPairStep_cases (some x) p
    rw [hz]
    exact ih z

/-- Soundness of the fold: a produced pair is the accumulator or a list
member, and its ratio dominates both. -/
theorem foldl_maxPairStep_some (l : List (ℚ × String)) :
    ∀ (acc : Option (ℚ × String)) (r : ℚ × String), l.foldl maxPairStep acc = some r →
      (acc = some r ∨ r ∈ l) ∧ (∀ p ∈ l, p.1 ≤ r.1) ∧ ∀ a, acc = some a → a.1 ≤ r.1 := by
  induction l with
  | nil =>
    intro acc r h
    simp only [List.foldl_nil] at h
    refine ⟨Or.inl h, by simp, ?_⟩
    intro a ha
    rw [h] at ha
    injection ha with ha
    subst ha
    exact le_refl _
  | cons p t ih =>
    intro acc r h
    simp only [List.foldl_cons] at h
    obtain ⟨x, hx, hmem, hpx, haccx⟩ := maxPairStep_cases acc p
    rw [hx] at h
    obtain ⟨hm, hall, hacc2⟩ := ih (some x) r h
    have hxr : x.1 ≤ r.1 := hacc2 x rfl
    refine ⟨?_, ?_, ?_⟩
    · rcases hm with hm | hm
      · injection hm with hm
        subst hm
        rcases hmem with hmem | hmem
        · exact Or.inr (hmem ▸ List.mem_cons_self _ _)
        · exact Or.inl hmem
      · exact Or.inr (List.mem_cons_of_mem _ hm)
    · intro z hz
      rcases List.mem_cons.mp hz with hz | hz
      · subst hz; exact le_trans hpx hxr
      · exact hall z hz
    · intro a ha
      exact le_trans (haccx a ha) hxr

/-- What a successful `get_close_matches1` call guarantees: membership,
cutoff (boundary inclusive), and maximality of the similarity ratio. -/
theorem get_close_matches1_sound (word : String) (poss : List String) (cutoff : ℚ)
    (x : String) (h : get_close_matches1 word poss cutoff = some x) :
    x ∈ poss ∧ cutoff ≤ ratioQ x.data word.data ∧
      ∀ t ∈ poss, ratioQ t.data word.data ≤ ratioQ x.data word.data := by
  unfold get_close_matches1 at h
  cases hfold : (poss.filterMap (fun t =>
      if cutoff ≤ ratioQ t.data word.data then some (ratioQ t.data word.data, t)
      else none)).foldl maxPairStep none with
  | none => rw [hfold] at h; simp at h
  | some r =>
    rw [hfold] at h
    rw [show (some r).map Prod.snd = some r.2 from rfl] at h
    injection h with h
    obtain ⟨hm, hall, -⟩ := foldl_maxPairStep_some _ none r hfold
    have hrmem : r ∈ poss.filterMap (fun t =>
        if cutoff ≤ ratioQ t.data word.data then some (ratioQ t.data word.data, t)
        else none) := by
      rcases hm with hm | hm
      · exact Option.noConfusion hm
      · exact hm
    obtain ⟨a, ha, hfa⟩ := List.mem_filterMap.mp hrmem
    by_cases hca : cutoff ≤ ratioQ a.data word.data
    · rw [if_pos hca] at hfa
      injection hfa with hfa
      subst hfa
      subst h
      refine ⟨ha, hca, ?_⟩
      intro t ht
      by_cases hct : cutoff ≤ ratioQ t.data word.data
      · exact hall (ratioQ t.data word.data, t)
          (List.mem_filterMap.mpr ⟨t, ht, by rw [if_pos hct]⟩)
      · exact le_trans (le_of_lt (not_le.mp hct)) hca
    · rw [if_neg hca] at hfa
      exact absurd hfa (by simp)

/-- When every candidate's ratio is strictly below the cutoff,
`get_close_matches1` returns nothing. -/
theorem get_close_matches1_below_cutoff (word : String) (poss : List String) (cutoff : ℚ)
    (h : ∀ t ∈ poss, ratioQ t.data word.data < cutoff) :
    get_close_matches1 word poss cutoff = none := by
  unfold get_close_matches1
  have hnil : poss.filterMap (fun t =>
      if cutoff ≤ ratioQ t.data word.data then some (ratioQ t.data word.data, t)
      else none) = [] := by
    rw [List.filterMap_eq_nil_iff]
    intro a ha
    rw [if_neg (not_le.mpr (h a ha))]
  rw [hnil]
  rfl

theorem matchTotal_nil_left (b : List Char) : matchTotal [] b = 0 := by
  unfold matchTotal
  rw [show ([] : List Char).length + b.length + 1 = b.length + 1 from by simp]
  simp only [mbTotal]
  simp [flm]

theorem ratioQ_nil_left (b : List Char) (hb : b ≠ []) : ratioQ [] b = 0 := by
  unfold ratioQ
  rw [if_neg (show ¬(([] : List Char).length + b.length = 0) from by
    simpa [List.length_eq_zero] using hb)]
  rw [matchTotal_nil_left]
  norm_num

/-- Completeness of the fold pipeline: as soon as one candidate reaches the
cutoff (boundary included, since the filter tests `cutoff ≤ ratio`),
`get_close_matches1` returns a match. -/
theorem get_close_matches1_of_passing (word : String) (poss : List String) (cutoff : ℚ)
    (h : ∃ t ∈ poss, cutoff ≤ ratioQ t.data word.data) :
    ∃ x, get_close_matches1 word poss cutoff = some x := by
  obtain ⟨t, ht, htr⟩ := h
  have hmem : (ratioQ t.data word.data, t) ∈ poss.filterMap (fun u =>
      if cutoff ≤ ratioQ u.data word.data then some (ratioQ u.data word.data, u)
      else none) :=
    List.mem_filterMap.mpr ⟨t, ht, by rw [if_pos htr]⟩
  unfold get_close_matches1
  cases hp : poss.filterMap (fun u =>
      if cutoff ≤ ratioQ u.data word.data then some (ratioQ u.data word.data, u)
      else none) with
  | nil => rw [hp] at hmem; simp at hmem
  | cons p rest =>
    simp only [List.foldl_cons]
    rw [show maxPairStep none p = some p from rfl]
    obtain ⟨y, hy⟩ := foldl_maxPairStep_isSome rest p
    rw [hy]
    exact ⟨y.2, rfl⟩

/-! ## Claims -/

/-- C1: the spec claims the theme sequence round-trips losslessly through
the string-serialized metadata (`deserialize(serialize(themes)) == themes`).
The code violates this: `build_index` writes `", ".join(themes)` while
`search_books` reads with `json.loads`, which fails on the comma-joined
form, so the fallback wraps the whole stored string as a single-element
list.  At `themes = ["friendship", "magic"]` the round trip yields
`["friendship, magic"]`, not `["friendship", "magic"]`. -/
theorem C1_roundtrip_failure :
    serializeThemes ["friendship", "magic"] = "friendship, magic" ∧
    deserializeThemes (some (serializeThemes ["friendship", "magic"])) =
      PyVal.vList [PyVal.vStr "friendship, magic"] ∧
    PyVal.vList [PyVal.vStr "friendship, magic"] ≠
      PyVal.vList [PyVal.vStr "friendship", PyVal.vStr "magic"] :=
  ⟨rfl, rfl, by simp⟩

/-- C2: for every cosine distance `d` in `[0, 2]`,
`cosine_score_from_distance` returns exactly `round(clamp(((1-d)+1)/2, 0, 1), 3)`,
the result lies in `[0, 1]`, and the sample points map as claimed
(`0 ↦ 1.0`, `1 ↦ 0.5`, `2 ↦ 0.0`, `0.1 ↦ 0.95`). -/
theorem C2_score_normalization (d : ℚ) (h0 : 0 ≤ d) (h2 : d ≤ 2) :
    cosine_score_from_distance d = pyRound3 (min 1 (max 0 ((1 - d + 1) / 2))) ∧
    0 ≤ cosine_score_from_distance d ∧ cosine_score_from_distance d ≤ 1 ∧
    cosine_score_from_distance 0 = 1 ∧ cosine_score_from_distance 1 = 1 / 2 ∧
    cosine_score_from_distance 2 = 0 ∧ cosine_score_from_distance (1 / 10) = 19 / 20 := by
  refine ⟨?_, cosine_score_nonneg d, cosine_score_le_one d, ?_, ?_, ?_, ?_⟩
  · simp only [cosine_score_from_distance]
    congr 1
    rw [max_def, min_def]
    split_ifs <;> linarith
  · norm_num [cosine_score_from_distance, pyRound3, roundHalfEven]
  · norm_num [cosine_score_from_distance, pyRound3, roundHalfEven]
  · norm_num [cosine_score_from_distance, pyRound3, roundHalfEven]
  · norm_num [cosine_score_from_distance, pyRound3, roundHalfEven]

/-- Witness for C2 at the concrete distance `d = 0.1`. -/
theorem C2_score_normalization_witness :
    cosine_score_from_distance (1 / 10) = 19 / 20 :=
  (C2_score_normalization (1 / 10) (by norm_num) (by norm_num)).2.2.2.2.2.2

/-- C3: for a non-empty candidate list and any reply (produced by an
arbitrary generative oracle), `_pick_from_titles` chooses the first
candidate, in the original candidate order, whose title occurs
case-insensitively in the reply; when no candidate occurs it chooses the
first (highest-ranked) candidate. -/
theorem C3_pick_first_occurrence (oracle : String → List String → String)
    (q t0 : String) (ts : List String) :
    ((_pick_from_titles oracle q (t0 :: ts)).1 = t0 ∧
      ∀ t ∈ t0 :: ts, occursIn t (oracle q (t0 :: ts)) = false) ∨
    (∃ l1 l2, t0 :: ts = l1 ++ (_pick_from_titles oracle q (t0 :: ts)).1 :: l2 ∧
      occursIn ((_pick_from_titles oracle q (t0 :: ts)).1) (oracle q (t0 :: ts)) = true ∧
      ∀ t ∈ l1, occursIn t (oracle q (t0 :: ts)) = false) := by
  have hpick : (_pick_from_titles oracle q (t0 :: ts)).1 =
      ((t0 :: ts).find? (fun t => occursIn t (oracle q (t0 :: ts)))).getD t0 := rfl
  cases hfind : (t0 :: ts).find? (fun t => occursIn t (oracle q (t0 :: ts))) with
  | none =>
    left
    refine ⟨by rw [hpick, hfind]; rfl, ?_⟩
    intro t ht
    have := List.find?_eq_none.mp hfind t ht
    simpa using this
  | some a =>
    right
    obtain ⟨l1, l2, hsplit, hpa, hprev⟩ := find?_some_decomp _ _ _ hfind
    rw [hpick, hfind]
    exact ⟨l1, l2, by simpa using hsplit, by simpa using hpa, fun x hx => by simpa using hprev x hx⟩

/-- C4: for a non-empty candidate list, the title `_pick_from_titles`
chooses is always a member of the candidate list it was given. -/
theorem C4_chosen_member (oracle : String → List String → String)
    (q t0 : String) (ts : List String) :
    (_pick_from_titles oracle q (t0 :: ts)).1 ∈ t0 :: ts := by
  have hpick : (_pick_from_titles oracle q (t0 :: ts)).1 =
      ((t0 :: ts).find? (fun t => occursIn t (oracle q (t0 :: ts)))).getD t0 := rfl
  cases hfind : (t0 :: ts).find? (fun t => occursIn t (oracle q (t0 :: ts))) with
  | none => rw [hpick, hfind]; exact List.mem_cons_self _ _
  | some a => rw [hpick, hfind]; exact List.mem_of_find?_eq_some hfind

theorem processResults_length (ms : List MetaR) (ds : List ℚ) :
    (processResults ms ds).length = ms.length := by
  induction ms generalizing ds with
  | nil => simp [processResults]
  | cons m ms ih => cases ds <;> simp [processResults, ih]

theorem processResults_scores (ms : List MetaR) :
    ∀ ds : List ℚ, ds.length = ms.length →
      (processResults ms ds).map SearchItem.score = ds.map cosine_score_from_distance := by
  induction ms with
  | nil =>
    intro ds h
    have : ds = [] := List.length_eq_zero.mp h
    subst this
    rfl
  | cons m ms ih =>
    intro ds h
    cases ds with
    | nil => simp at h
    | cons dv ds' =>
      simp only [processResults, List.map_cons]
      rw [ih ds' (by simpa using h)]

/-- C7: assuming the vector store returns the `min(k, size)` nearest
neighbors in ascending distance order, `search_books` returns exactly one
item per returned neighbor (hence at most `k`, and all entries when the
collection holds fewer than `k`), ordered by descending score; an empty
result set yields an empty list, not an error. -/
theorem C7_search_ordering (metas : List MetaR) (dists : List ℚ) (k : Nat)
    (hlen : dists.length = metas.length) (hk : metas.length ≤ k)
    (hsorted : List.Sorted (· ≤ ·) dists) :
    (search_books_post [metas] [dists]).length = metas.length ∧
    (search_books_post [metas] [dists]).length ≤ k ∧
    List.Sorted (· ≥ ·) ((search_books_post [metas] [dists]).map SearchItem.score) ∧
    (metas = [] → search_books_post [metas] [dists] = []) := by
  have hpost : search_books_post [metas] [dists] = processResults metas dists := rfl
  refine ⟨?_, ?_, ?_, ?_⟩
  · rw [hpost]; exact processResults_length metas dists
  · rw [hpost, processResults_length]; exact hk
  · rw [hpost, processResults_scores metas dists hlen]
    exact List.Pairwise.map _ (fun a b hab => cosine_score_antitone hab) hsorted
  · intro h; subst h
    have : dists = [] := List.length_eq_zero.mp (by simpa using hlen)
    subst this
    rfl

/-- Witness for C7 on a concrete two-hit store reply with `k = 3`. -/
theorem C7_search_ordering_witness :
    (search_books_post [metasW] [distsW]).length = metasW.length ∧
    (search_books_post [metasW] [distsW]).length ≤ 3 ∧
    List.Sorted (· ≥ ·) ((search_books_post [metasW] [distsW]).map SearchItem.score) ∧
    (metasW = [] → search_books_post [metasW] [distsW] = []) :=
  C7_search_ordering metasW distsW 3 rfl (by norm_num [metasW])
    (by norm_num [distsW, List.sorted_cons])

set_option maxRecDepth 80000 in
/-- Concrete fuzzy match: the misspelled `"The Hobbitt"` resolves to
`"The Hobbit"` (ratio `20/21 ≥ 0.6`). -/
theorem match_title_hobbit : match_title hobbitCatalog "The Hobbitt" = "The Hobbit" := by
  have hR : ratioQ "The Hobbit".data (pyStrip "The Hobbitt").data = 20 / 21 := by
    have hM : matchTotal "The Hobbit".data (pyStrip "The Hobbitt").data = 10 := by decide
    unfold ratioQ
    rw [hM, show "The Hobbit".data.length = 10 from rfl,
      show (pyStrip "The Hobbitt").data.length = 11 from by decide]
    norm_num
  unfold match_title
  rw [if_neg (show ¬ pyStrip "The Hobbitt" = "" from by decide),
    show all_titles hobbitCatalog = ["The Hobbit"] from by decide]
  unfold get_close_matches1
  simp only [List.filterMap_cons, List.filterMap_nil, hR]
  rw [if_pos (show (3 / 5 : ℚ) ≤ 20 / 21 from by norm_num)]
  rfl

/-- Concrete fuzzy miss: no catalog at all gives no fuzzy match. -/
theorem match_title_missing_xyz : match_title Dataset.missing "xyz" = "" := by
  unfold match_title
  rw [if_neg (show ¬ pyStrip "xyz" = "" from by decide)]
  rfl

set_option maxRecDepth 80000 in
/-- C5 counterexample: the claim says that whenever some catalog title equals
the query after trimming and case-folding, resolution picks that exact
match.  On the two-book catalog `["The Hobbit", "the hobbits"]` and query
`"the hobbit"`, the title `"The Hobbit"` equals the query case-insensitively,
yet `handle_query` runs `match_title` (fuzzy, no case folding) first, which
prefers `"the hobbits"` (ratio `20/21` beats `16/20`), so resolution returns
`("the hobbits", "S2")`, not `"The Hobbit"`. -/
theorem C5_counterexample :
    pyLower (pyStrip "The Hobbit") = pyLower (pyStrip "the hobbit") ∧
    (load_books twoHobbitCatalog).map (fun b => b.title.getD "") =
      ["The Hobbit", "the hobbits"] ∧
    titleResolution twoHobbitCatalog "the hobbit" = some ("the hobbits", "S2") ∧
    ("the hobbits" : String) ≠ "The Hobbit" := by
  refine ⟨by decide, by decide, ?_, by decide⟩
  have hR1 : ratioQ "The Hobbit".data (pyStrip "the hobbit").data = 4 / 5 := by
    have hM : matchTotal "The Hobbit".data (pyStrip "the hobbit").data = 8 := by decide
    unfold ratioQ
    rw [hM, show "The Hobbit".data.length = 10 from rfl,
      show (pyStrip "the hobbit").data.length = 10 from by decide]
    norm_num
  have hR2 : ratioQ "the hobbits".data (pyStrip "the hobbit").data = 20 / 21 := by
    have hM : matchTotal "the hobbits".data (pyStrip "the hobbit").data = 10 := by decide
    unfold ratioQ
    rw [hM, show "the hobbits".data.length = 11 from rfl,
      show (pyStrip "the hobbit").data.length = 10 from by decide]
    norm_num
  have hmt : match_title twoHobbitCatalog "the hobbit" = "the hobbits" := by
    unfold match_title
    rw [if_neg (show ¬ pyStrip "the hobbit" = "" from by decide),
      show all_titles twoHobbitCatalog = ["The Hobbit", "the hobbits"] from by decide]
    unfold get_close_matches1
    simp only [List.filterMap_cons, List.filterMap_nil, hR1, hR2]
    rw [if_pos (show (3 / 5 : ℚ) ≤ 4 / 5 from by norm_num),
      if_pos (show (3 / 5 : ℚ) ≤ 20 / 21 from by norm_num)]
    simp only [List.foldl_cons, List.foldl_nil,
      show maxPairStep none ((4 : ℚ) / 5, "The Hobbit") =
        some ((4 : ℚ) / 5, "The Hobbit") from rfl]
    simp only [maxPairStep]
    rw [if_pos (Or.inl (show (4 : ℚ) / 5 < 20 / 21 from by norm_num))]
    rfl
  unfold titleResolution fixedTitle
  rw [hmt, if_neg (show ¬ ("the hobbits" : String) = "" from by decide),
    show get_summary_by_title twoHobbitCatalog "the hobbits" = "S2" from by decide]
  rw [if_neg (show ¬ ("S2" : String) = "" from by decide)]

/-- C5 amended: title resolution tries the approximate path before the exact
path.  When fuzzy matching over the catalog titles yields a best match
(similarity at least `0.6`), `handle_query` resolves via that fuzzy title —
the summary lookup is performed on the fuzzy result, not on the raw query;
exact case-insensitive lookup of the raw query happens only when fuzzy
matching fails. -/
theorem C5_fuzzy_before_exact (d : Dataset) (q : String) :
    (match_title d q ≠ "" →
      titleResolution d q =
        (if get_summary_by_title d (match_title d q) = "" then none
         else some (match_title d q, get_summary_by_title d (match_title d q)))) ∧
    (match_title d q = "" →
      titleResolution d q =
        (if get_summary_by_title d q = "" then none
         else some (q, get_summary_by_title d q))) := by
  unfold titleResolution fixedTitle
  constructor
  · intro h
    rw [if_neg h]
  · intro h
    rw [if_pos h]

/-- Witness for the amended C5: the misspelled query `"The Hobbitt"` takes
the fuzzy branch, and a query against a missing catalog takes the raw-query
fallback branch. -/
theorem C5_fuzzy_before_exact_witness :
    (titleResolution hobbitCatalog "The Hobbitt" =
      (if get_summary_by_title hobbitCatalog (match_title hobbitCatalog "The Hobbitt") = ""
       then none
       else some (match_title hobbitCatalog "The Hobbitt",
         get_summary_by_title hobbitCatalog (match_title hobbitCatalog "The Hobbitt")))) ∧
    (titleResolution Dataset.missing "xyz" =
      (if get_summary_by_title Dataset.missing "xyz" = "" then none
       else some ("xyz", get_summary_by_title Dataset.missing "xyz"))) :=
  ⟨(C5_fuzzy_before_exact hobbitCatalog "The Hobbitt").1
      (by rw [match_title_hobbit]; decide),
   (C5_fuzzy_before_exact Dataset.missing "xyz").2 match_title_missing_xyz⟩

set_option maxRecDepth 80000 in
/-- C6 counterexample: the claim says fuzzy resolution compares query and
titles after trimming *and case-folding* both sides.  `match_title` only
strips: on the catalog `["ABCDE"]` and query `"abcde"` the code returns
`""` (ratio without folding is `0 < 0.6`), while the spec-modelled
case-folding resolver (`match_title_spec`) returns `"ABCDE"` (folded ratio
`1 ≥ 0.6`). -/
theorem C6_counterexample :
    match_title upperCatalog "abcde" = "" ∧
    match_title_spec upperCatalog "abcde" = "ABCDE" := by
  constructor
  · have hR : ratioQ "ABCDE".data (pyStrip "abcde").data = 0 := by
      have hM : matchTotal "ABCDE".data (pyStrip "abcde").data = 0 := by decide
      unfold ratioQ
      rw [hM, show "ABCDE".data.length = 5 from rfl,
        show (pyStrip "abcde").data.length = 5 from by decide]
      norm_num
    unfold match_title
    rw [if_neg (show ¬ pyStrip "abcde" = "" from by decide),
      show all_titles upperCatalog = ["ABCDE"] from by decide]
    unfold get_close_matches1
    simp only [List.filterMap_cons, List.filterMap_nil, hR]
    rw [if_neg (show ¬ (3 / 5 : ℚ) ≤ 0 from by norm_num)]
    rfl
  · have hR : ratioQ (pyLower "ABCDE").data (pyLower (pyStrip "abcde")).data = 1 := by
      have hM : matchTotal (pyLower "ABCDE").data (pyLower (pyStrip "abcde")).data = 5 := by
        decide
      unfold ratioQ
      rw [hM, show (pyLower "ABCDE").data.length = 5 from by decide,
        show (pyLower (pyStrip "abcde")).data.length = 5 from by decide]
      norm_num
    unfold match_title_spec
    rw [if_neg (show ¬ pyStrip "abcde" = "" from by decide)]
    simp only [show all_titles upperCatalog = ["ABCDE"] from by decide,
      List.filterMap_cons, List.filterMap_nil, hR]
    rw [if_pos (show (3 / 5 : ℚ) ≤ 1 from by norm_num)]
    rfl

/-- C6 amended: fuzzy title resolution compares the query and the catalog
titles after trimming whitespace only (no case folding).  Whenever it
returns a title, that title is a catalog title whose similarity ratio to the
stripped query is at least `0.6` and maximal among all catalog titles; when
every catalog title falls strictly below `0.6` it returns NotFound (`""`),
so it never returns a match below the cutoff; and conversely, for a
non-blank stripped query, as soon as some catalog title reaches `0.6` —
the boundary exactly at `0.6` included — a match is returned (the cutoff
test is the inclusive `cutoff ≤ ratio`). -/
theorem C6_fuzzy_cutoff (d : Dataset) (q : String) :
    (match_title d q ≠ "" →
      match_title d q ∈ all_titles d ∧
      (3 / 5 : ℚ) ≤ ratioQ (match_title d q).data (pyStrip q).data ∧
      ∀ t ∈ all_titles d,
        ratioQ t.data (pyStrip q).data ≤ ratioQ (match_title d q).data (pyStrip q).data) ∧
    ((∀ t ∈ all_titles d, ratioQ t.data (pyStrip q).data < 3 / 5) →
      match_title d q = "") ∧
    (pyStrip q ≠ "" →
      (∃ t ∈ all_titles d, (3 / 5 : ℚ) ≤ ratioQ t.data (pyStrip q).data) →
      match_title d q ≠ "") := by
  refine ⟨?_, ?_, ?_⟩
  · intro hne
    unfold match_title at hne ⊢
    by_cases hq : pyStrip q = ""
    · rw [if_pos hq] at hne
      exact absurd rfl hne
    · rw [if_neg hq] at hne ⊢
      cases hgc : get_close_matches1 (pyStrip q) (all_titles d) (3 / 5) with
      | none => rw [hgc] at hne; exact absurd rfl hne
      | some x =>
        exact get_close_matches1_sound _ _ _ x hgc
  · intro hall
    unfold match_title
    by_cases hq : pyStrip q = ""
    · rw [if_pos hq]
    · rw [if_neg hq, get_close_matches1_below_cutoff _ _ _ hall]
  · intro hq hex
    unfold match_title
    rw [if_neg hq]
    obtain ⟨x, hgc⟩ := get_close_matches1_of_passing (pyStrip q) (all_titles d) (3 / 5) hex
    rw [hgc]
    obtain ⟨-, hxr, -⟩ := get_close_matches1_sound _ _ _ x hgc
    intro hxe
    have hxe' : x = "" := hxe
    subst hxe'
    have hwnil : (pyStrip q).data ≠ [] := by
      intro hn
      exact hq (String.ext (by rw [hn]))
    have h0 : ratioQ ("" : String).data (pyStrip q).data = 0 :=
      ratioQ_nil_left _ hwnil
    rw [h0] at hxr
    norm_num at hxr

set_option maxRecDepth 80000 in
/-- Witness for the amended C6: a successful fuzzy match on the misspelled
`"The Hobbitt"`, the NotFound branch on a missing catalog, and acceptance at
the boundary — on catalog `["abcd"]` and query `"abczzz"` the similarity is
exactly `3/5 = 0.6` (`M = 3`, `T = 10`) and a match is returned. -/
theorem C6_fuzzy_cutoff_witness :
    (match_title hobbitCatalog "The Hobbitt" ∈ all_titles hobbitCatalog ∧
      (3 / 5 : ℚ) ≤ ratioQ (match_title hobbitCatalog "The Hobbitt").data
        (pyStrip "The Hobbitt").data ∧
      ∀ t ∈ all_titles hobbitCatalog,
        ratioQ t.data (pyStrip "The Hobbitt").data ≤
          ratioQ (match_title hobbitCatalog "The Hobbitt").data (pyStrip "The Hobbitt").data) ∧
    match_title Dataset.missing "xyz" = "" ∧
    (ratioQ "abcd".data (pyStrip "abczzz").data = 3 / 5 ∧
      match_title boundaryCatalog "abczzz" ≠ "") := by
  have hRB : ratioQ "abcd".data (pyStrip "abczzz").data = 3 / 5 := by
    have hM : matchTotal "abcd".data (pyStrip "abczzz").data = 3 := by decide
    unfold ratioQ
    rw [hM, show "abcd".data.length = 4 from rfl,
      show (pyStrip "abczzz").data.length = 6 from by decide]
    norm_num
  exact ⟨(C6_fuzzy_cutoff hobbitCatalog "The Hobbitt").1 (by rw [match_title_hobbit]; decide),
    (C6_fuzzy_cutoff Dataset.missing "xyz").2.1 (by simp [all_titles, load_books]),
    hRB,
    (C6_fuzzy_cutoff boundaryCatalog "abczzz").2.2 (by decide)
      ⟨"abcd", by decide, le_of_eq hRB.symm⟩⟩

/-- C8: with an empty candidate list, `_pick_from_titles` returns the empty
chosen title immediately and makes no generative-provider call (the `Bool`
component records whether the oracle was invoked). -/
theorem C8_empty_candidates (oracle : String → List String → String) (q : String) :
    _pick_from_titles oracle q [] = ("", false) := rfl

/-- C9: `build_index` fails with the empty-catalog `RuntimeError` when the
loaded catalog has zero records; no provider plan (embedding batches or
upsert payload) is produced, so no embedding request or index write is
attempted. -/
theorem C9_empty_catalog :
    build_index_model [] = Except.error "No books were loaded. Check the JSON file." := rfl

/-- C10: with the dataset file missing, the tool-layer operations never
raise: `get_summary_by_title` and `match_title` both return `""` for every
input (the missing file is treated as an empty catalog by `_load_books`),
whereas the catalog loader `load_book_summaries` raises its
dataset-not-found error for the same missing path. -/
theorem C10_missing_dataset (s p : String) :
    get_summary_by_title Dataset.missing s = "" ∧
    match_title Dataset.missing s = "" ∧
    load_book_summaries Dataset.missing p = .error ("Dataset not found at: " ++ p) := by
  refine ⟨?_, ?_, rfl⟩
  · unfold get_summary_by_title
    split
    · rfl
    · rfl
  · unfold match_title
    split
    · rfl
    · rfl

end SmartLibrarian
